import Mathlib

/-!
Verification of the connection-pool core of `hlandau.SQLAPI` (src/Pool.ts,
interfaces in src/LLDB.ts) against its natural-language specification.

The embedding follows the source closely:

* `PoolState` mirrors the private fields of class `DBPool`: the record maps
  `__allConnections` / `__idleConnections` (JavaScript objects keyed by the
  decimal string of a monotonically increasing numeric id; `for..in`
  enumerates such keys in ascending numeric order, so both maps are embedded
  as lists of records/ids kept in ascending id order, and "take the first
  key" becomes "take the head"), the counters `__numConnections` and
  `__numIdleConnections` (JavaScript numbers, embedded as `Int` so that the
  `--x` decrements are exact), the `__deadError` flag, and the state of the
  `Semaphore` wait gate (`__closed`).  Two ghost fields record externally
  observable actions: `closedConns` lists the connection ids whose driver
  `close()` call has been issued by idle trimming (in issue order), and
  `signalCount` counts calls to `Semaphore.signal()`.

* Each private method of `DBPool` becomes a function on `PoolState`;
  methods that can `throw` internal faults return `Except String _`.

* The concurrency model is the one stated by the specification (§5): the
  scheduler is single-threaded and cooperative, code between `await`
  suspension points runs atomically, and other pool operations may
  interleave only at those suspension points.  `__popConnection` is
  therefore split at its two awaits into three atomic blocks:
  `popConnStart` (entry up to the first suspension), `popConnWake`
  (resumption after `Semaphore.wait()` resolves), and `connectResume`
  (resumption after the driver `connect` call inside
  `__openAdditionalConnection` resolves).

* The two lifetime adapters `DBPoolRowsWrapper` and `DBPoolTxWrapper` are
  embedded as standalone state machines over an abstract underlying driver
  stream / transaction, with a ghost counter recording how many times the
  return callback (`doneFunc` / `returnFunc`, i.e. `__returnConnection` on
  the bound connection) has fired.
-/

/-- Mirror of the pool-internal `_ConnInfo` record of src/Pool.ts (the
`conn` and `pool` fields are represented by the record's membership in a
pool state; `id` is the numeric value of the `ConnID` string). -/
structure ConnInfo where
  id : Nat
  checkedOut : Bool
  removed : Bool
deriving Repr, DecidableEq

/-- Mirror of the private state of class `DBPool` plus the wait-gate state of
its `__connectionAvailableSema` and two ghost fields recording observable
actions (driver `close()` calls issued by trimming, and `signal()` calls). -/
structure PoolState where
  /-- `options.idleConnections` after constructor defaulting (default 1). -/
  idleTarget : Nat
  /-- `options.maxConnections` after constructor clamping (`none` = unlimited). -/
  maxConnections : Option Nat
  /-- `__allConnections`, in ascending id order (JavaScript numeric-key enumeration order). -/
  allConnections : List ConnInfo
  /-- `__numConnections`. -/
  numConnections : Int
  /-- `__idleConnections` (ids only; the records live in `allConnections`), ascending. -/
  idleConnections : List Nat
  /-- `__numIdleConnections`. -/
  numIdleConnections : Int
  /-- `__deadError !== null`. -/
  dead : Bool
  /-- `__connectionAvailableSema.__closed`. -/
  semaClosed : Bool
  /-- the module-level `curConnID` counter. -/
  curConnID : Nat
  /-- ghost: ids whose underlying driver connection received a `close()` call
  from `__trimIdle`, in the order the calls were issued. -/
  closedConns : List Nat
  /-- ghost: number of `__connectionAvailableSema.signal()` calls so far. -/
  signalCount : Nat
deriving Repr, DecidableEq

/-- Ids of the records currently in `__allConnections`. -/
def idsOf (s : PoolState) : List Nat := s.allConnections.map ConnInfo.id

/-- Mirror of the `DBPool` constructor: `idleConnections` defaults to 1, and a
`maxConnections` below `idleConnections` is raised to `idleConnections`. -/
def mkPool (idleConnections : Option Nat) (maxConnections : Option Nat) : PoolState :=
  let idle := idleConnections.getD 1
  { idleTarget := idle
    maxConnections :=
      match maxConnections with
      | none => none
      | some m => some (if m < idle then idle else m)
    allConnections := []
    numConnections := 0
    idleConnections := []
    numIdleConnections := 0
    dead := false
    semaClosed := false
    curConnID := 0
    closedConns := []
    signalCount := 0 }

/-- Insert an id into an ascending id list at its numeric position.  This is
how a JavaScript object keyed by decimal numeric strings enumerates after an
insertion: `for..in` yields integer-like keys in ascending numeric order. -/
def sortedInsert (x : Nat) : List Nat → List Nat
  | [] => [x]
  | y :: ys => if x ≤ y then x :: y :: ys else y :: sortedInsert x ys

/-- Update the `checkedOut` flag of the record with the given id (mirrors a
field assignment through the shared `_ConnInfo` object reference). -/
def setFlag (id : Nat) (b : Bool) (c : ConnInfo) : ConnInfo :=
  if c.id = id then { c with checkedOut := b } else c

/-- Apply `setFlag` inside a pool state. -/
def setCheckedOut (s : PoolState) (id : Nat) (b : Bool) : PoolState :=
  { s with allConnections := s.allConnections.map (setFlag id b) }

/-- Mirror of `DBPool.__addConnection`: allocate the next `ConnID`, create a
fresh record (`checkedOut: false, removed: false`), insert it into
`__allConnections` and `__idleConnections`, and bump both counters.  The fresh
id exceeds every id ever issued, so appending keeps ascending order. -/
def addConnection (s : PoolState) : PoolState :=
  let id := s.curConnID + 1
  let info : ConnInfo := { id := id, checkedOut := false, removed := false }
  { s with
    curConnID := id
    allConnections := s.allConnections ++ [info]
    idleConnections := s.idleConnections ++ [id]
    numConnections := s.numConnections + 1
    numIdleConnections := s.numIdleConnections + 1 }

/-- Mirror of `DBPool.__removeConnection`: decrement `__numIdleConnections`
only if the record is currently in `__idleConnections`, decrement
`__numConnections`, and delete the record from both maps.  (The source also
sets `info.removed = true` and deletes the `symConnInfo` tag from the driver
connection; once the record has left both maps, the only observable effect of
that is that a later return of this connection fails the membership check,
which the embedding expresses by the record's absence from `allConnections`.) -/
def removeConnection (s : PoolState) (id : Nat) : PoolState :=
  { s with
    numIdleConnections :=
      if id ∈ s.idleConnections then s.numIdleConnections - 1 else s.numIdleConnections
    numConnections := s.numConnections - 1
    idleConnections := s.idleConnections.filter (fun i => i ≠ id)
    allConnections := s.allConnections.filter (fun c => c.id ≠ id) }

/-- Mirror of `DBPool.__tryPopConnection`: take the first key of
`__idleConnections` (ascending numeric order), delete it and decrement the
idle counter; if nothing was there, return `null`; if the popped record is
already checked out, throw the internal fault; otherwise mark it checked out
and return it.  (The `find?` miss branch cannot occur in well-formed states:
in the source the record is read straight out of the idle map.) -/
def tryPopConnection (s : PoolState) : Except String (Option Nat × PoolState) :=
  match s.idleConnections with
  | [] => .ok (none, s)
  | id :: rest =>
    let s1 := { s with idleConnections := rest, numIdleConnections := s.numIdleConnections - 1 }
    match s1.allConnections.find? (fun c => c.id == id) with
    | none => .ok (none, s1)
    | some info =>
      if info.checkedOut then .error "popped connection which is already checked out"
      else .ok (some id, setCheckedOut s1 id true)

/-- One iteration of the `__trimIdle` loop body applied to the chosen idle
record: remove it from all pool sets (`__removeConnection`), and only then
issue the fire-and-forget driver `close()` (recorded in the `closedConns`
ghost, preserving issue order). -/
def trimStep (s : PoolState) (id : Nat) : PoolState :=
  let s1 := removeConnection s id
  { s1 with closedConns := s1.closedConns ++ [id] }

/-- Mirror of `DBPool.__trimIdle`, with explicit fuel standing in for the
`while` loop: while the idle counter exceeds the idle target, run `trimStep`
on the first idle record.  In well-formed states the counter equals the
length of the idle list, so fuel `s.idleConnections.length` never runs out;
the empty branch (where the source loop would spin) is unreachable there. -/
def trimIdleFuel : Nat → PoolState → PoolState
  | 0, s => s
  | fuel + 1, s =>
    if s.numIdleConnections > (s.idleTarget : Int) then
      match s.idleConnections with
      | [] => s
      | id :: _ => trimIdleFuel fuel (trimStep s id)
    else s

/-- `DBPool.__trimIdle` (see `trimIdleFuel`). -/
def trimIdle (s : PoolState) : PoolState :=
  trimIdleFuel s.idleConnections.length s

/-- Mirror of `DBPool.__returnConnection`: fault if the connection carries no
record of this pool (`symConnInfo` missing or foreign, embedded as absence
from `allConnections`), fault if it is not checked out; otherwise clear the
checked-out flag, re-insert the id into `__idleConnections`, bump the idle
counter, `signal()` the wait gate, and run `__trimIdle`. -/
def returnConnection (s : PoolState) (id : Nat) : Except String PoolState :=
  match s.allConnections.find? (fun c => c.id == id) with
  | none => .error "cannot return DB connection which is not a member of the pool"
  | some info =>
    if !info.checkedOut then .error "cannot return DB connection which is not checked out"
    else
      let s1 := setCheckedOut s id false
      let s2 := { s1 with
        idleConnections := sortedInsert id s1.idleConnections
        numIdleConnections := s1.numIdleConnections + 1
        signalCount := s1.signalCount + 1 }
      .ok (trimIdle s2)

/-- Mirror of `DBPool.close`: a no-op on a dead pool, otherwise set
`__deadError` and close the wait gate (`Semaphore.close` sets `__closed` and
issues one `signal()`, waking every current waiter). -/
def closePool (s : PoolState) : PoolState :=
  if s.dead then s
  else { s with dead := true, semaClosed := true, signalCount := s.signalCount + 1 }

/-- Outcome of one atomic block of `DBPool.__popConnection` (each constructor
carries the pool state as the block leaves it). -/
inductive PopOutcome where
  /-- the block returned a checked-out connection. -/
  | got (id : Nat) (s : PoolState)
  /-- the block suspended in `await __connectionAvailableSema.wait()`. -/
  | enterWait (s : PoolState)
  /-- the block threw `__deadError` (via `__checkDead`). -/
  | failDead (s : PoolState)
  /-- the block threw `ctx.error`. -/
  | failCtx (s : PoolState)
  /-- the block suspended in the driver `connect` call
  (inside `__openAdditionalConnection` / `__openConnection`). -/
  | enterConnect (s : PoolState)
  /-- the block threw `DB pool cannot open additional connection`. -/
  | fatalErr (s : PoolState)
  /-- the block threw an internal bookkeeping fault. -/
  | fault (msg : String) (s : PoolState)
deriving Repr, DecidableEq

/-- State carried by a `PopOutcome`. -/
def outcomeState : PopOutcome → PoolState
  | .got _ s => s
  | .enterWait s => s
  | .failDead s => s
  | .failCtx s => s
  | .enterConnect s => s
  | .fatalErr s => s
  | .fault _ s => s

/-- Did the block return a connection? -/
def isGot : PopOutcome → Bool
  | .got _ _ => true
  | _ => false

/-- Condition of the admission `while` loop of `__popConnection`:
`maxConnections !== undefined && numConnections >= maxConnections`. -/
def atCapacity (s : PoolState) : Bool :=
  match s.maxConnections with
  | none => false
  | some m => s.numConnections ≥ (m : Int)

/-- Shared tail of `__popConnection` after a failed pop: (re-)evaluate the
admission loop condition (suspending in `wait()` if it holds), otherwise fall
through to `__checkDead()`, then the `ctx.error` check, then suspend in the
driver `connect` call (the `ctx.error !== null` guard at the top of
`__openConnection` runs in the same atomic block and is subsumed by the check
just performed). -/
def popConnTail (s : PoolState) (ctxCancelled : Bool) : PopOutcome :=
  if atCapacity s && !ctxCancelled then .enterWait s
  else if s.dead then .failDead s
  else if ctxCancelled then .failCtx s
  else .enterConnect s

/-- First atomic block of `DBPool.__popConnection` (entry up to the first
suspension point): try to pop an idle record, then `popConnTail`. -/
def popConnStart (s : PoolState) (ctxCancelled : Bool) : PopOutcome :=
  match tryPopConnection s with
  | .error m => .fault m s
  | .ok (some id, s1) => .got id s1
  | .ok (none, s1) => popConnTail s1 ctxCancelled

/-- Atomic block run when a waiter suspended in
`await __connectionAvailableSema.wait()` resumes (after a `signal()`, or
immediately if the gate is closed): pop, return on success, otherwise
re-evaluate the loop condition — textually identical to `popConnStart`. -/
def popConnWake (s : PoolState) (ctxCancelled : Bool) : PopOutcome :=
  popConnStart s ctxCancelled

/-- Atomic block run when the driver `connect` call resolves:
`__openAdditionalConnection` registers the fresh connection
(`__addConnection`), then `__popConnection` pops; if the pop comes back
empty the source throws `DB pool cannot open additional connection`. -/
def connectResume (s : PoolState) : PopOutcome :=
  let s1 := addConnection s
  match tryPopConnection s1 with
  | .error m => .fault m s1
  | .ok (some id, s2) => .got id s2
  | .ok (none, s2) => .fatalErr s2

/-- Entry block of `DBPool.begin` / `exec` / `query`: `__checkDead()` throws
the dead-pool error before any checkout or driver call is attempted,
otherwise `__popConnection` begins. -/
def opStart (s : PoolState) (ctxCancelled : Bool) : PopOutcome :=
  if s.dead then .failDead s else popConnStart s ctxCancelled

/-!
Result-stream lifetime adapter (`DBPoolRowsWrapper`).

The underlying driver row stream (`ILLDBRows`) is modelled as a counter of
rows still to deliver plus its `done` flag: `next()` delivers a row and marks
the stream done once the final row has been delivered, and `close()` marks it
done (per src/LLDB.ts, a rows object is concluded — `done === true` — whether
via `close()` or via exhausting the iterator); `done` is sticky.  The wrapper
mirrors `DBPoolRowsWrapper`: `__done` is the one-shot latch and `doneCount`
is a ghost counting invocations of `doneFunc` (which in `DBPool.query` is
`() => this.__returnConnection(conn)`).
-/

/-- Abstract underlying driver row stream. -/
structure URows where
  pending : Nat
  udone : Bool
deriving Repr, DecidableEq

/-- Underlying `next()`: deliver one row; the stream reports `done` once the
last row has been delivered (sticky). -/
def unext (u : URows) : URows :=
  { pending := u.pending - 1, udone := u.udone || decide (u.pending ≤ 1) }

/-- Underlying `close()`: concludes the stream (`done` becomes true). -/
def uclose (u : URows) : URows := { u with udone := true }

/-- Mirror of `DBPoolRowsWrapper`: the wrapped stream, the `__done` latch, and
a ghost count of `__doneFunc` invocations. -/
structure RowsWrapper where
  u : URows
  wdone : Bool
  doneCount : Nat
deriving Repr, DecidableEq

/-- Mirror of `DBPoolRowsWrapper.__checkStatus`: if the underlying stream is
done and the latch has not fired, fire it (invoke `doneFunc`) exactly once. -/
def checkStatus (w : RowsWrapper) : RowsWrapper :=
  if w.u.udone && !w.wdone then { w with wdone := true, doneCount := w.doneCount + 1 }
  else w

/-- Mirror of `DBPoolRowsWrapper.next`: delegate to the underlying `next`,
then run the status check. -/
def wnext (w : RowsWrapper) : RowsWrapper :=
  checkStatus { w with u := unext w.u }

/-- Mirror of `DBPoolRowsWrapper.close`: delegate to the underlying `close`
first, then run the status check. -/
def wclose (w : RowsWrapper) : RowsWrapper :=
  checkStatus { w with u := uclose w.u }

/-- Operations a caller can perform on a wrapped row stream. -/
inductive ROp where
  | rnext
  | rclose
deriving Repr, DecidableEq

/-- Run a sequence of caller operations on a wrapped row stream. -/
def runRows : List ROp → RowsWrapper → RowsWrapper
  | [], w => w
  | ROp.rnext :: ops, w => runRows ops (wnext w)
  | ROp.rclose :: ops, w => runRows ops (wclose w)

/-- A freshly wrapped stream with `n` rows still to deliver. -/
def mkRows (n : Nat) : RowsWrapper :=
  { u := { pending := n, udone := false }, wdone := false, doneCount := 0 }

/-!
Transaction lifetime adapter (`DBPoolTxWrapper`).

The underlying driver transaction's `commit()` / `rollback()` calls may
throw; whether the driver call throws is an input of the operation.  The
wrapper mirrors `DBPoolTxWrapper`: `returned` is the `__returned` latch and
`returnCount` is a ghost counting invocations of `returnFunc` (which in
`DBPool.begin` is `() => this.__returnConnection(conn)`, so each invocation
is one connection return plus one wait-gate `signal()`).
-/

/-- Operations on a transaction handle; for `commit`/`rollback` the flag says
whether the underlying driver call throws. -/
inductive TxOp where
  | commitOp (driverFails : Bool)
  | rollbackOp (driverFails : Bool)
  | execOp
  | queryOp
deriving Repr, DecidableEq

/-- Mirror of the `DBPoolTxWrapper` state plus the `returnFunc` ghost count. -/
structure TxWrapper where
  returned : Bool
  returnCount : Nat
deriving Repr, DecidableEq

/-- Result of one transaction-handle operation. -/
inductive TxResult where
  /-- the call resolved. -/
  | ok
  /-- the call threw `cannot use expired transaction object`. -/
  | expiredErr
  /-- the underlying driver call threw and the error propagated. -/
  | driverErr
deriving Repr, DecidableEq

/-- Mirror of `DBPoolTxWrapper.__returnToPool`: a one-shot latch around
`returnFunc`. -/
def returnToPool (w : TxWrapper) : TxWrapper :=
  if w.returned then w
  else { returned := true, returnCount := w.returnCount + 1 }

/-- Mirror of one `DBPoolTxWrapper` method call.  `commit`: `__check()`
throws once returned; then the driver commit (a throw propagates before
`__returnToPool` is reached); then the latch fires.  `rollback`: a no-op once
returned; then the driver rollback; then the latch fires.  `exec`/`query`:
`__check()` then delegate to the bound connection. -/
def txStep (w : TxWrapper) : TxOp → TxWrapper × TxResult
  | .commitOp driverFails =>
    if w.returned then (w, .expiredErr)
    else if driverFails then (w, .driverErr)
    else (returnToPool w, .ok)
  | .rollbackOp driverFails =>
    if w.returned then (w, .ok)
    else if driverFails then (w, .driverErr)
    else (returnToPool w, .ok)
  | .execOp => if w.returned then (w, .expiredErr) else (w, .ok)
  | .queryOp => if w.returned then (w, .expiredErr) else (w, .ok)

/-- Run a sequence of operations on a transaction handle. -/
def runTx : List TxOp → TxWrapper → TxWrapper
  | [], w => w
  | op :: ops, w => runTx ops (txStep w op).1

/-- A fresh transaction handle as built by `DBPool.begin`. -/
def txInit : TxWrapper := { returned := false, returnCount := 0 }

/-- Does this operation complete an underlying driver commit or rollback
(the events on which the connection is meant to return to the pool)? -/
def isDriverReturn : TxOp → Bool
  | .commitOp false => true
  | .rollbackOp false => true
  | _ => false

/-!
Well-formedness of a pool state.  The first four clauses are the state
invariants stated by the specification (§3); the remaining clauses are the
auxiliary facts needed to push them through every operation: the maps are
duplicate-free, every issued id is bounded by the `curConnID` counter (so a
freshly allocated id is genuinely fresh), and a trimmed-and-closed id never
reappears in the pool.
-/

/-- Well-formed pool state. -/
def WF (s : PoolState) : Prop :=
  s.numConnections = (s.allConnections.length : Int)
  ∧ s.numIdleConnections = (s.idleConnections.length : Int)
  ∧ (∀ id ∈ s.idleConnections, id ∈ idsOf s)
  ∧ (∀ c ∈ s.allConnections, c.id ∈ s.idleConnections → c.checkedOut = false)
  ∧ (idsOf s).Nodup
  ∧ s.idleConnections.Nodup
  ∧ (∀ c ∈ s.allConnections, c.id ≤ s.curConnID)
  ∧ s.closedConns.Nodup
  ∧ (∀ id ∈ s.closedConns, id ≤ s.curConnID ∧ id ∉ idsOf s)

instance (s : PoolState) : Decidable (WF s) := by
  unfold WF; infer_instance

theorem mem_sortedInsert (x a : Nat) (l : List Nat) :
    a ∈ sortedInsert x l ↔ a = x ∨ a ∈ l := by
  induction l with
  | nil => simp [sortedInsert]
  | cons y ys ih =>
    simp only [sortedInsert]
    split
    · simp
    · simp only [List.mem_cons, ih]
      tauto

theorem length_sortedInsert (x : Nat) (l : List Nat) :
    (sortedInsert x l).length = l.length + 1 := by
  induction l with
  | nil => rfl
  | cons y ys ih =>
    simp only [sortedInsert]
    split <;> simp [ih]

theorem nodup_sortedInsert (x : Nat) (l : List Nat) (hx : x ∉ l) (hl : l.Nodup) :
    (sortedInsert x l).Nodup := by
  induction l with
  | nil => simp [sortedInsert]
  | cons y ys ih =>
    simp only [sortedInsert]
    split
    · exact List.nodup_cons.mpr ⟨hx, hl⟩
    · rw [List.nodup_cons] at hl ⊢
      refine ⟨fun hy => ?_, ih (fun h => hx (List.mem_cons_of_mem _ h)) hl.2⟩
      rcases (mem_sortedInsert x y ys).mp hy with h | h
      · exact hx (h ▸ List.mem_cons_self y ys)
      · exact hl.1 h

theorem length_filter_ne_nat (l : List Nat) (a : Nat) (hn : l.Nodup) (ha : a ∈ l) :
    (l.filter (fun x => x ≠ a)).length + 1 = l.length := by
  induction l with
  | nil => cases ha
  | cons x xs ih =>
    rw [List.nodup_cons] at hn
    by_cases hx : x = a
    · subst hx
      rw [List.filter_cons_of_neg (by simp)]
      have hself : xs.filter (fun y => y ≠ x) = xs :=
        List.filter_eq_self.mpr (fun y hy => by
          simp only [ne_eq, decide_eq_true_eq]
          exact fun h => hn.1 (h ▸ hy))
      rw [hself, List.length_cons]
    · rw [List.filter_cons_of_pos (by simp [hx])]
      have h' : a ∈ xs := by
        rcases List.mem_cons.mp ha with h | h
        · exact absurd h.symm hx
        · exact h
      have := ih hn.2 h'
      simp only [List.length_cons]
      omega

theorem length_filter_id_ne (l : List ConnInfo) (a : Nat)
    (hn : (l.map ConnInfo.id).Nodup) (ha : a ∈ l.map ConnInfo.id) :
    (l.filter (fun c => c.id ≠ a)).length + 1 = l.length := by
  induction l with
  | nil => cases ha
  | cons x xs ih =>
    rw [List.map_cons, List.nodup_cons] at hn
    by_cases hx : x.id = a
    · rw [List.filter_cons_of_neg (by simp [hx])]
      have hself : xs.filter (fun c => c.id ≠ a) = xs :=
        List.filter_eq_self.mpr (fun c hc => by
          simp only [ne_eq, decide_eq_true_eq]
          intro h
          exact hn.1 (hx ▸ h ▸ List.mem_map_of_mem ConnInfo.id hc))
      rw [hself, List.length_cons]
    · rw [List.filter_cons_of_pos (by simp [hx])]
      have h' : a ∈ xs.map ConnInfo.id := by
        rcases List.mem_map.mp ha with ⟨c, hc, hca⟩
        rcases List.mem_cons.mp hc with hh | hh
        · exact absurd (hh ▸ hca) hx
        · exact hca ▸ List.mem_map_of_mem ConnInfo.id hh
      have := ih hn.2 h'
      simp only [List.length_cons]
      omega

theorem find?_id_eq_some (l : List ConnInfo) (id : Nat) (h : id ∈ l.map ConnInfo.id) :
    ∃ c, l.find? (fun c => c.id == id) = some c ∧ c.id = id ∧ c ∈ l := by
  induction l with
  | nil => cases h
  | cons x xs ih =>
    by_cases hx : x.id = id
    · exact ⟨x, List.find?_cons_of_pos _ (by simp [hx]), hx, List.mem_cons_self x xs⟩
    · have h' : id ∈ xs.map ConnInfo.id := by
        rcases List.mem_map.mp h with ⟨c, hc, hca⟩
        rcases List.mem_cons.mp hc with hh | hh
        · exact absurd (hh ▸ hca) hx
        · exact hca ▸ List.mem_map_of_mem ConnInfo.id hh
      obtain ⟨c, hc, hcid, hcm⟩ := ih h'
      exact ⟨c, by rw [List.find?_cons_of_neg _ (by simp [hx])]; exact hc, hcid,
        List.mem_cons_of_mem x hcm⟩

theorem setFlag_id (id : Nat) (b : Bool) (c : ConnInfo) : (setFlag id b c).id = c.id := by
  unfold setFlag; split <;> rfl

theorem idsOf_setCheckedOut (s : PoolState) (id : Nat) (b : Bool) :
    idsOf (setCheckedOut s id b) = idsOf s := by
  simp only [idsOf, setCheckedOut, List.map_map]
  exact List.map_congr_left (fun c _ => setFlag_id id b c)

theorem WF_addConnection (s : PoolState) (h : WF s) : WF (addConnection s) := by
  obtain ⟨h1, h2, h3, h4, h5, h6, h7, h8, h9⟩ := h
  have hfresh : s.curConnID + 1 ∉ idsOf s := by
    intro hm
    rcases List.mem_map.mp hm with ⟨c, hc, hcid⟩
    have := h7 c hc
    omega
  have hfreshIdle : s.curConnID + 1 ∉ s.idleConnections := fun hm => hfresh (h3 _ hm)
  have hids : idsOf (addConnection s) = idsOf s ++ [s.curConnID + 1] := by
    simp [idsOf, addConnection]
  refine ⟨?_, ?_, ?_, ?_, ?_, ?_, ?_, ?_, ?_⟩
  · simp only [addConnection, List.length_append, List.length_cons, List.length_nil]
    push_cast
    omega
  · simp only [addConnection, List.length_append, List.length_cons, List.length_nil]
    push_cast
    omega
  · rw [hids]
    simp only [addConnection]
    intro id hm
    rcases List.mem_append.mp hm with hm | hm
    · exact List.mem_append_left _ (h3 _ hm)
    · exact List.mem_append_right _ hm
  · simp only [addConnection]
    intro c hc hidle
    rcases List.mem_append.mp hc with hc | hc
    · rcases List.mem_append.mp hidle with hi | hi
      · exact h4 c hc hi
      · simp only [List.mem_singleton] at hi
        have := h7 c hc
        omega
    · simp only [List.mem_singleton] at hc
      subst hc
      rfl
  · rw [hids, List.nodup_append]
    exact ⟨h5, List.nodup_singleton _, fun a ha hb => by
      simp only [List.mem_singleton] at hb
      exact hfresh (hb ▸ ha)⟩
  · simp only [addConnection, List.nodup_append]
    exact ⟨h6, List.nodup_singleton _, fun a ha hb => by
      simp only [List.mem_singleton] at hb
      exact hfreshIdle (hb ▸ ha)⟩
  · simp only [addConnection]
    intro c hc
    rcases List.mem_append.mp hc with hc | hc
    · have := h7 c hc
      omega
    · simp only [List.mem_singleton] at hc
      subst hc
      simp
  · exact h8
  · rw [hids]
    simp only [addConnection]
    intro id hm
    obtain ⟨hle, hni⟩ := h9 id hm
    refine ⟨by omega, fun hmem => ?_⟩
    rcases List.mem_append.mp hmem with hh | hh
    · exact hni hh
    · simp only [List.mem_singleton] at hh
      omega

theorem tryPop_cases (s : PoolState) (h : WF s) :
    (s.idleConnections = [] ∧ tryPopConnection s = .ok (none, s))
    ∨ ∃ id rest info,
        s.idleConnections = id :: rest
        ∧ s.allConnections.find? (fun c => c.id == id) = some info
        ∧ info.checkedOut = false
        ∧ tryPopConnection s =
            .ok (some id,
              setCheckedOut { s with idleConnections := rest,
                                     numIdleConnections := s.numIdleConnections - 1 } id true) := by
  obtain ⟨h1, h2, h3, h4, h5, h6, h7, h8, h9⟩ := h
  cases hidle : s.idleConnections with
  | nil => exact Or.inl ⟨rfl, by simp [tryPopConnection, hidle]⟩
  | cons id rest =>
    have hmem : id ∈ idsOf s := h3 id (hidle ▸ List.mem_cons_self id rest)
    obtain ⟨info, hfind, hid, hinfo⟩ := find?_id_eq_some s.allConnections id hmem
    have hco : info.checkedOut = false :=
      h4 info hinfo (hid ▸ hidle ▸ List.mem_cons_self id rest)
    refine Or.inr ⟨id, rest, info, rfl, hfind, hco, ?_⟩
    simp only [tryPopConnection, hidle, hfind, hco]
    rfl

theorem WF_popResult (s : PoolState) (id : Nat) (rest : List Nat) (h : WF s)
    (hidle : s.idleConnections = id :: rest) :
    WF (setCheckedOut { s with idleConnections := rest,
                               numIdleConnections := s.numIdleConnections - 1 } id true) := by
  obtain ⟨h1, h2, h3, h4, h5, h6, h7, h8, h9⟩ := h
  have hnodup := hidle ▸ h6
  rw [List.nodup_cons] at hnodup
  have hstate : setCheckedOut { s with idleConnections := rest,
                                       numIdleConnections := s.numIdleConnections - 1 } id true
      = { s with allConnections := s.allConnections.map (setFlag id true),
                 idleConnections := rest,
                 numIdleConnections := s.numIdleConnections - 1 } := rfl
  rw [hstate]
  have hids : idsOf { s with allConnections := s.allConnections.map (setFlag id true),
                             idleConnections := rest,
                             numIdleConnections := s.numIdleConnections - 1 } = idsOf s := by
    simp only [idsOf, List.map_map]
    exact List.map_congr_left (fun c _ => setFlag_id id true c)
  refine ⟨?_, ?_, ?_, ?_, ?_, ?_, ?_, ?_, ?_⟩
  · simpa using h1
  · rw [hidle] at h2
    simp only [List.length_cons] at h2
    push_cast at h2 ⊢
    omega
  · rw [hids]
    intro i hi
    exact h3 i (hidle ▸ List.mem_cons_of_mem id hi)
  · intro c' hc' hmem
    simp only [List.mem_map] at hc'
    obtain ⟨c, hc, hflag⟩ := hc'
    by_cases hcid : c.id = id
    · exfalso
      have : c'.id = id := by rw [← hflag, setFlag_id, hcid]
      exact hnodup.1 (this ▸ hmem)
    · have : c' = c := by rw [← hflag]; simp [setFlag, hcid]
      subst this
      exact h4 c' hc (hidle ▸ List.mem_cons_of_mem id hmem)
  · rw [hids]
    exact h5
  · exact hnodup.2
  · intro c' hc'
    simp only [List.mem_map] at hc'
    obtain ⟨c, hc, hflag⟩ := hc'
    have := h7 c hc
    rw [← hflag, setFlag_id]
    exact this
  · exact h8
  · rw [hids]
    exact h9

theorem idsOf_removeConnection_subset (s : PoolState) (id : Nat) :
    ∀ a ∈ idsOf (removeConnection s id), a ∈ idsOf s := by
  intro a ha
  simp only [idsOf, removeConnection, List.mem_map] at ha ⊢
  obtain ⟨c, hc, hca⟩ := ha
  exact ⟨c, (List.mem_filter.mp hc).1, hca⟩

theorem WF_removeConnection (s : PoolState) (id : Nat) (h : WF s)
    (hid : id ∈ s.idleConnections) : WF (removeConnection s id) := by
  obtain ⟨h1, h2, h3, h4, h5, h6, h7, h8, h9⟩ := h
  have hmemids : id ∈ idsOf s := h3 id hid
  have hlenAll := length_filter_id_ne s.allConnections id h5 hmemids
  have hlenIdle := length_filter_ne_nat s.idleConnections id h6 hid
  refine ⟨?_, ?_, ?_, ?_, ?_, ?_, ?_, ?_, ?_⟩
  · simp only [removeConnection]
    omega
  · simp only [removeConnection, if_pos hid]
    omega
  · simp only [removeConnection]
    intro i hi
    have hi' := List.mem_filter.mp hi
    have hne : i ≠ id := by simpa using hi'.2
    obtain ⟨c, hc, hca⟩ := List.mem_map.mp (h3 i hi'.1)
    refine List.mem_map.mpr ⟨c, List.mem_filter.mpr ⟨hc, by simpa [hca] using hne⟩, hca⟩
  · simp only [removeConnection]
    intro c hc hci
    exact h4 c (List.mem_filter.mp hc).1 (List.mem_filter.mp hci).1
  · exact ((List.filter_sublist _).map ConnInfo.id).nodup h5
  · exact h6.filter _
  · simp only [removeConnection]
    intro c hc
    exact h7 c (List.mem_filter.mp hc).1
  · exact h8
  · intro i hi
    obtain ⟨hle, hni⟩ := h9 i hi
    exact ⟨hle, fun hmem => hni (idsOf_removeConnection_subset s id i hmem)⟩

theorem trimStep_fields (s : PoolState) (id : Nat) :
    (trimStep s id).closedConns = s.closedConns ++ [id]
    ∧ (trimStep s id).idleTarget = s.idleTarget
    ∧ (trimStep s id).dead = s.dead
    ∧ (trimStep s id).semaClosed = s.semaClosed
    ∧ (trimStep s id).maxConnections = s.maxConnections
    ∧ (trimStep s id).curConnID = s.curConnID
    ∧ (trimStep s id).signalCount = s.signalCount
    ∧ (trimStep s id).allConnections = (removeConnection s id).allConnections
    ∧ (trimStep s id).idleConnections = (removeConnection s id).idleConnections :=
  ⟨rfl, rfl, rfl, rfl, rfl, rfl, rfl, rfl, rfl⟩

theorem trimStep_numIdle (s : PoolState) (id : Nat) (hid : id ∈ s.idleConnections) :
    (trimStep s id).numIdleConnections = s.numIdleConnections - 1 := by
  simp [trimStep, removeConnection, if_pos hid]

theorem WF_trimStep (s : PoolState) (id : Nat) (tl : List Nat) (h : WF s)
    (hidle : s.idleConnections = id :: tl) : WF (trimStep s id) := by
  have hid : id ∈ s.idleConnections := hidle ▸ List.mem_cons_self id tl
  obtain ⟨g1, g2, g3, g4, g5, g6, g7, g8, g9⟩ := WF_removeConnection s id h hid
  obtain ⟨h1, h2, h3, h4, h5, h6, h7, h8, h9⟩ := h
  have hidmem : id ∈ idsOf s := h3 id hid
  have hidout : id ∉ idsOf (removeConnection s id) := by
    intro hmem
    simp only [idsOf, removeConnection, List.mem_map] at hmem
    obtain ⟨c, hc, hca⟩ := hmem
    have := (List.mem_filter.mp hc).2
    simp [hca] at this
  refine ⟨g1, g2, g3, g4, g5, g6, g7, ?_, ?_⟩
  · show (s.closedConns ++ [id]).Nodup
    rw [List.nodup_append]
    refine ⟨h8, List.nodup_singleton _, fun a ha hb => ?_⟩
    simp only [List.mem_singleton] at hb
    exact (h9 a ha).2 (hb ▸ hidmem)
  · show ∀ i ∈ s.closedConns ++ [id], i ≤ (removeConnection s id).curConnID
      ∧ i ∉ idsOf (removeConnection s id)
    intro i hi
    rcases List.mem_append.mp hi with hi | hi
    · exact g9 i hi
    · simp only [List.mem_singleton] at hi
      subst hi
      obtain ⟨c, hc, hca⟩ := List.mem_map.mp hidmem
      exact ⟨hca ▸ h7 c hc, hidout⟩

theorem trimIdleFuel_succ_pos (fuel : Nat) (s : PoolState) (id : Nat) (tl : List Nat)
    (hc : s.numIdleConnections > (s.idleTarget : Int)) (hidle : s.idleConnections = id :: tl) :
    trimIdleFuel (fuel + 1) s = trimIdleFuel fuel (trimStep s id) := by
  simp only [trimIdleFuel, if_pos hc, hidle]

theorem trimIdleFuel_spec (fuel : Nat) : ∀ s : PoolState, WF s →
    s.numIdleConnections ≤ (s.idleTarget : Int) + fuel →
    WF (trimIdleFuel fuel s)
    ∧ (∃ tr : List Nat,
        (trimIdleFuel fuel s).closedConns = s.closedConns ++ tr
        ∧ (trimIdleFuel fuel s).numIdleConnections + (tr.length : Int) = s.numIdleConnections)
    ∧ (trimIdleFuel fuel s).numIdleConnections =
        (if s.numIdleConnections ≤ (s.idleTarget : Int) then s.numIdleConnections
         else (s.idleTarget : Int))
    ∧ (trimIdleFuel fuel s).idleTarget = s.idleTarget
    ∧ (trimIdleFuel fuel s).dead = s.dead
    ∧ (trimIdleFuel fuel s).semaClosed = s.semaClosed
    ∧ (trimIdleFuel fuel s).maxConnections = s.maxConnections
    ∧ (trimIdleFuel fuel s).curConnID = s.curConnID
    ∧ (trimIdleFuel fuel s).signalCount = s.signalCount := by
  induction fuel with
  | zero =>
    intro s hWF hfuel
    have hle : s.numIdleConnections ≤ (s.idleTarget : Int) := by simpa using hfuel
    have hs : trimIdleFuel 0 s = s := rfl
    rw [hs]
    exact ⟨hWF, ⟨[], by simp, by simp⟩, by rw [if_pos hle], rfl, rfl, rfl, rfl, rfl, rfl⟩
  | succ fuel ih =>
    intro s hWF hfuel
    by_cases hc : s.numIdleConnections > (s.idleTarget : Int)
    · cases hidle : s.idleConnections with
      | nil =>
        exfalso
        have h2 := hWF.2.1
        rw [hidle] at h2
        simp at h2
        omega
      | cons id tl =>
        have hid : id ∈ s.idleConnections := hidle ▸ List.mem_cons_self id tl
        have hWF2 := WF_trimStep s id tl hWF hidle
        have hstep := trimIdleFuel_succ_pos fuel s id tl hc hidle
        have hnum2 := trimStep_numIdle s id hid
        obtain ⟨f1, f2, f3, f4, f5, f6, f7, f8, f9⟩ := trimStep_fields s id
        have hfuel2 : (trimStep s id).numIdleConnections
            ≤ ((trimStep s id).idleTarget : Int) + fuel := by
          rw [hnum2, f2]
          omega
        obtain ⟨i1, ⟨tr, i2a, i2b⟩, i3, i4, i5, i6, i7, i8, i9⟩ := ih _ hWF2 hfuel2
        rw [hstep]
        refine ⟨i1, ⟨id :: tr, ?_, ?_⟩, ?_, ?_, ?_, ?_, ?_, ?_, ?_⟩
        · rw [i2a, f1]
          simp
        · rw [hnum2] at i2b
          simp only [List.length_cons]
          push_cast at i2b ⊢
          omega
        · rw [i3, hnum2, f2,
            if_neg (show ¬ s.numIdleConnections ≤ (s.idleTarget : Int) by omega)]
          split_ifs with hcase
          · omega
          · rfl
        · rw [i4, f2]
        · rw [i5, f3]
        · rw [i6, f4]
        · rw [i7, f5]
        · rw [i8, f6]
        · rw [i9, f7]
    · have hs : trimIdleFuel (fuel + 1) s = s := by
        simp only [trimIdleFuel, if_neg hc]
      rw [hs]
      exact ⟨hWF, ⟨[], by simp, by simp⟩, by rw [if_pos (by omega)], rfl, rfl, rfl, rfl, rfl, rfl⟩

theorem trimIdle_spec (s : PoolState) (h : WF s) :
    WF (trimIdle s)
    ∧ (∃ tr : List Nat,
        (trimIdle s).closedConns = s.closedConns ++ tr
        ∧ (trimIdle s).numIdleConnections + (tr.length : Int) = s.numIdleConnections)
    ∧ (trimIdle s).numIdleConnections =
        (if s.numIdleConnections ≤ (s.idleTarget : Int) then s.numIdleConnections
         else (s.idleTarget : Int))
    ∧ (trimIdle s).idleTarget = s.idleTarget
    ∧ (trimIdle s).dead = s.dead
    ∧ (trimIdle s).semaClosed = s.semaClosed
    ∧ (trimIdle s).maxConnections = s.maxConnections
    ∧ (trimIdle s).curConnID = s.curConnID
    ∧ (trimIdle s).signalCount = s.signalCount := by
  have hfuel : s.numIdleConnections ≤ (s.idleTarget : Int) + s.idleConnections.length := by
    rw [h.2.1]
    omega
  exact trimIdleFuel_spec s.idleConnections.length s h hfuel

theorem WF_returnPre (s : PoolState) (id : Nat) (info : ConnInfo) (h : WF s)
    (hfind : s.allConnections.find? (fun c => c.id == id) = some info)
    (hco : info.checkedOut = true) :
    WF { s with allConnections := s.allConnections.map (setFlag id false),
                idleConnections := sortedInsert id s.idleConnections,
                numIdleConnections := s.numIdleConnections + 1,
                signalCount := s.signalCount + 1 } := by
  obtain ⟨h1, h2, h3, h4, h5, h6, h7, h8, h9⟩ := h
  have hmem : info ∈ s.allConnections := List.mem_of_find?_eq_some hfind
  have hid : info.id = id := by
    have := List.find?_some hfind
    simpa using this
  have hidmem : id ∈ idsOf s := hid ▸ List.mem_map_of_mem ConnInfo.id hmem
  have hnotidle : id ∉ s.idleConnections := by
    intro hin
    have := h4 info hmem (hid ▸ hin)
    rw [hco] at this
    cases this
  have hids : idsOf { s with allConnections := s.allConnections.map (setFlag id false),
                             idleConnections := sortedInsert id s.idleConnections,
                             numIdleConnections := s.numIdleConnections + 1,
                             signalCount := s.signalCount + 1 } = idsOf s := by
    simp only [idsOf, List.map_map]
    exact List.map_congr_left (fun c _ => setFlag_id id false c)
  refine ⟨?_, ?_, ?_, ?_, ?_, ?_, ?_, ?_, ?_⟩
  · simpa using h1
  · simp only [length_sortedInsert]
    push_cast
    omega
  · rw [hids]
    intro i hi
    rcases (mem_sortedInsert id i s.idleConnections).mp hi with hi | hi
    · exact hi ▸ hidmem
    · exact h3 i hi
  · intro c' hc' hmemi
    simp only [List.mem_map] at hc'
    obtain ⟨c, hc, hflag⟩ := hc'
    by_cases hcid : c.id = id
    · rw [← hflag]
      simp [setFlag, hcid]
    · have hcc : c' = c := by rw [← hflag]; simp [setFlag, hcid]
      subst hcc
      have : c'.id ∈ s.idleConnections := by
        rcases (mem_sortedInsert id c'.id s.idleConnections).mp hmemi with hh | hh
        · exact absurd hh hcid
        · exact hh
      exact h4 c' hc this
  · rw [hids]
    exact h5
  · exact nodup_sortedInsert id s.idleConnections hnotidle h6
  · intro c' hc'
    simp only [List.mem_map] at hc'
    obtain ⟨c, hc, hflag⟩ := hc'
    rw [← hflag, setFlag_id]
    exact h7 c hc
  · exact h8
  · rw [hids]
    exact h9

theorem returnConnection_ok_spec (s : PoolState) (id : Nat) (s' : PoolState) (h : WF s)
    (hok : returnConnection s id = .ok s') :
    WF s'
    ∧ (∃ tr : List Nat, s'.closedConns = s.closedConns ++ tr
        ∧ s'.numIdleConnections + (tr.length : Int) = s.numIdleConnections + 1)
    ∧ s'.numIdleConnections =
        (if s.numIdleConnections + 1 ≤ (s.idleTarget : Int) then s.numIdleConnections + 1
         else (s.idleTarget : Int))
    ∧ s'.idleTarget = s.idleTarget
    ∧ s'.dead = s.dead
    ∧ s'.semaClosed = s.semaClosed
    ∧ s'.maxConnections = s.maxConnections
    ∧ s'.curConnID = s.curConnID
    ∧ s'.signalCount = s.signalCount + 1 := by
  unfold returnConnection at hok
  split at hok
  · exact absurd hok (by simp)
  · rename_i info hfind
    split at hok
    · exact absurd hok (by simp)
    · rename_i hco
      have hco' : info.checkedOut = true := by
        revert hco
        cases info.checkedOut <;> simp
      have hWF2 := WF_returnPre s id info h hfind hco'
      simp only [Except.ok.injEq] at hok
      obtain ⟨t1, ⟨tr, t2a, t2b⟩, t3, t4, t5, t6, t7, t8, t9⟩ := trimIdle_spec _ hWF2
      rw [← hok]
      refine ⟨t1, ⟨tr, t2a, by simpa using t2b⟩, by simpa using t3, t4, t5, t6, t7, t8,
        by simpa using t9⟩

/-- One-shot-latch invariant of a rows wrapper: the done callback has fired
exactly once if the latch is set and never otherwise, and the latch is only
set after the underlying stream is done. -/
def RInv (w : RowsWrapper) : Prop :=
  w.doneCount = (if w.wdone then 1 else 0) ∧ (w.wdone = true → w.u.udone = true)

theorem checkStatus_wdone (w : RowsWrapper) :
    (checkStatus w).wdone = (w.wdone || w.u.udone) := by
  unfold checkStatus
  by_cases h1 : w.u.udone <;> by_cases h2 : w.wdone <;> simp [h1, h2]

theorem checkStatus_u (w : RowsWrapper) : (checkStatus w).u = w.u := by
  unfold checkStatus
  split <;> rfl

theorem RInv_checkStatus (w : RowsWrapper) (h : RInv w) : RInv (checkStatus w) := by
  obtain ⟨h1, h2⟩ := h
  unfold checkStatus
  by_cases hu : w.u.udone <;> by_cases hw : w.wdone <;>
    simp_all [RInv]

theorem unext_udone_mono (u : URows) (h : u.udone = true) : (unext u).udone = true := by
  simp [unext, h]

theorem RInv_wnext (w : RowsWrapper) (h : RInv w) : RInv (wnext w) := by
  refine RInv_checkStatus _ ⟨h.1, fun hw => ?_⟩
  exact unext_udone_mono _ (h.2 hw)

theorem RInv_wclose (w : RowsWrapper) (h : RInv w) : RInv (wclose w) := by
  refine RInv_checkStatus _ ⟨h.1, fun _ => rfl⟩

theorem RInv_runRows (ops : List ROp) : ∀ w : RowsWrapper, RInv w → RInv (runRows ops w) := by
  induction ops with
  | nil => intro w h; exact h
  | cons op ops ih =>
    intro w h
    cases op with
    | rnext => exact ih _ (RInv_wnext w h)
    | rclose => exact ih _ (RInv_wclose w h)

theorem runRows_append (ops1 ops2 : List ROp) : ∀ w : RowsWrapper,
    runRows (ops1 ++ ops2) w = runRows ops2 (runRows ops1 w) := by
  induction ops1 with
  | nil => intro w; rfl
  | cons op ops ih =>
    intro w
    cases op with
    | rnext => exact ih (wnext w)
    | rclose => exact ih (wclose w)

theorem runRows_wdone_mono (ops : List ROp) : ∀ w : RowsWrapper,
    w.wdone = true → (runRows ops w).wdone = true := by
  induction ops with
  | nil => intro w h; exact h
  | cons op ops ih =>
    intro w h
    cases op with
    | rnext =>
      refine ih _ ?_
      rw [wnext, checkStatus_wdone, h]
      rfl
    | rclose =>
      refine ih _ ?_
      rw [wclose, checkStatus_wdone, h]
      rfl

theorem wclose_wdone (w : RowsWrapper) : (wclose w).wdone = true := by
  rw [wclose, checkStatus_wdone]
  simp [uclose]

theorem runRows_nexts_wdone (k : Nat) : ∀ w : RowsWrapper,
    w.u.pending + 1 ≤ k → (runRows (List.replicate k ROp.rnext) w).wdone = true := by
  induction k with
  | zero => intro w h; omega
  | succ k ih =>
    intro w h
    have hstep : runRows (List.replicate (k + 1) ROp.rnext) w
        = runRows (List.replicate k ROp.rnext) (wnext w) := rfl
    rw [hstep]
    by_cases hp : w.u.pending = 0
    · have hw : (wnext w).wdone = true := by
        rw [wnext, checkStatus_wdone]
        simp [unext, hp]
      exact runRows_wdone_mono _ _ hw
    · have hpend : (wnext w).u.pending = w.u.pending - 1 := by
        rw [wnext, checkStatus_u]
        rfl
      exact ih _ (by omega)

theorem txStep_returned (w : TxWrapper) (op : TxOp) :
    (txStep w op).1.returned = (w.returned || isDriverReturn op) := by
  cases op with
  | commitOp b =>
    by_cases hr : w.returned
    · simp [txStep, hr]
    · cases b <;> simp [txStep, hr, returnToPool, isDriverReturn]
  | rollbackOp b =>
    by_cases hr : w.returned
    · simp [txStep, hr]
    · cases b <;> simp [txStep, hr, returnToPool, isDriverReturn]
  | execOp =>
    by_cases hr : w.returned <;> simp [txStep, hr, isDriverReturn]
  | queryOp =>
    by_cases hr : w.returned <;> simp [txStep, hr, isDriverReturn]

theorem txStep_count (w : TxWrapper) (op : TxOp)
    (h : w.returnCount = if w.returned then 1 else 0) :
    (txStep w op).1.returnCount = (if (txStep w op).1.returned then 1 else 0) := by
  cases op with
  | commitOp b =>
    by_cases hr : w.returned
    · simpa [txStep, hr] using h
    · cases b
      · have hc : w.returnCount = 0 := by simpa [hr] using h
        simp [txStep, hr, returnToPool, hc]
      · simpa [txStep, hr] using h
  | rollbackOp b =>
    by_cases hr : w.returned
    · simpa [txStep, hr] using h
    · cases b
      · have hc : w.returnCount = 0 := by simpa [hr] using h
        simp [txStep, hr, returnToPool, hc]
      · simpa [txStep, hr] using h
  | execOp =>
    by_cases hr : w.returned <;> simpa [txStep, hr] using h
  | queryOp =>
    by_cases hr : w.returned <;> simpa [txStep, hr] using h

theorem runTx_char (ops : List TxOp) : ∀ w : TxWrapper,
    w.returnCount = (if w.returned then 1 else 0) →
    (runTx ops w).returnCount = (if (runTx ops w).returned then 1 else 0)
    ∧ (runTx ops w).returned = (w.returned || ops.any isDriverReturn) := by
  induction ops with
  | nil =>
    intro w h
    exact ⟨h, by simp [runTx]⟩
  | cons op ops ih =>
    intro w h
    have hstep : runTx (op :: ops) w = runTx ops (txStep w op).1 := rfl
    rw [hstep]
    obtain ⟨a1, a2⟩ := ih _ (txStep_count w op h)
    refine ⟨a1, ?_⟩
    rw [a2, txStep_returned]
    simp [Bool.or_assoc]

/-- Claim C3: for every query whose driver call succeeds, the bound
connection is returned to the pool exactly once — never zero times and never
twice — both when the caller drains the wrapped row stream to exhaustion via
`next()` (async iteration is a sequence of `next()` calls) and when the
caller invokes `close()`, including close after partial iteration (`ops` is
an arbitrary preceding operation sequence); and `close()` delegates to the
underlying stream's close before performing the status check that may fire
the return latch.  `doneCount` counts invocations of the `doneFunc` callback,
which in `DBPool.query` is `() => this.__returnConnection(conn)`. -/
theorem c3_rows_connection_returned_exactly_once (n : Nat) (ops : List ROp) :
    (runRows ops (mkRows n)).doneCount ≤ 1
    ∧ (runRows (List.replicate (n + 1) ROp.rnext) (mkRows n)).doneCount = 1
    ∧ (runRows (ops ++ [ROp.rclose]) (mkRows n)).doneCount = 1
    ∧ (∀ w : RowsWrapper, wclose w = checkStatus { w with u := uclose w.u }) := by
  have hinv0 : RInv (mkRows n) := ⟨rfl, by simp [mkRows]⟩
  refine ⟨?_, ?_, ?_, fun w => rfl⟩
  · rw [(RInv_runRows ops _ hinv0).1]
    split <;> omega
  · rw [(RInv_runRows _ _ hinv0).1,
      runRows_nexts_wdone (n + 1) (mkRows n) (by simp [mkRows])]
    rfl
  · rw [(RInv_runRows _ _ hinv0).1, runRows_append]
    have hone : runRows [ROp.rclose] (runRows ops (mkRows n))
        = wclose (runRows ops (mkRows n)) := rfl
    rw [hone, wclose_wdone (runRows ops (mkRows n))]
    rfl

/-- Claim C4: for every transaction handle produced by `begin`, the bound
connection is returned to the pool exactly once, on whichever of
commit/rollback completes first (`returnCount` is 1 exactly when the
operation sequence contains a commit or rollback whose driver call
succeeded, and is never larger); once returned, every further `rollback` is
a no-op that does not error, does not return the connection again and does
not signal the wait gate again (the state — including the `returnFunc`
invocation count, each invocation of which is one `__returnConnection` and
one `signal()` — is unchanged), and every further `commit`, `exec` or
`query` fails with the expired-transaction error. -/
theorem c4_tx_connection_returned_exactly_once (ops : List TxOp) :
    (runTx ops txInit).returnCount ≤ 1
    ∧ (runTx ops txInit).returnCount = (if ops.any isDriverReturn then 1 else 0)
    ∧ ((runTx ops txInit).returned = true →
        (∀ b, txStep (runTx ops txInit) (TxOp.rollbackOp b) = (runTx ops txInit, TxResult.ok))
        ∧ (∀ b, txStep (runTx ops txInit) (TxOp.commitOp b)
            = (runTx ops txInit, TxResult.expiredErr))
        ∧ txStep (runTx ops txInit) TxOp.execOp = (runTx ops txInit, TxResult.expiredErr)
        ∧ txStep (runTx ops txInit) TxOp.queryOp = (runTx ops txInit, TxResult.expiredErr)) := by
  obtain ⟨a1, a2⟩ := runTx_char ops txInit rfl
  have hret : (runTx ops txInit).returned = ops.any isDriverReturn := by simpa using a2
  refine ⟨?_, ?_, ?_⟩
  · rw [a1]
    split <;> omega
  · rw [a1, hret]
  · intro h
    exact ⟨fun b => by simp [txStep, h], fun b => by simp [txStep, h],
      by simp [txStep, h], by simp [txStep, h]⟩

/-- Claim C10: if the driver's `commit()` throws during a transaction
handle's `commit()` call, the return latch does not fire and the handle is
not marked expired (this holds after any operation sequence none of whose
driver commit/rollback calls succeeded, e.g. `[commitOp true]`): the
connection remains checked out (`returnCount = 0`, so `__returnConnection`
has not run), subsequent `exec`/`query`/`commit` calls are still permitted,
and a subsequent `rollback()` delegates to the driver rollback and then
returns the connection to the pool exactly once. -/
theorem c10_commit_failure_leaves_tx_usable (ops : List TxOp)
    (h : ops.any isDriverReturn = false) :
    (runTx ops txInit).returned = false
    ∧ (runTx ops txInit).returnCount = 0
    ∧ txStep (runTx ops txInit) (TxOp.commitOp true) = (runTx ops txInit, TxResult.driverErr)
    ∧ txStep (runTx ops txInit) TxOp.execOp = (runTx ops txInit, TxResult.ok)
    ∧ txStep (runTx ops txInit) TxOp.queryOp = (runTx ops txInit, TxResult.ok)
    ∧ (txStep (runTx ops txInit) (TxOp.commitOp false)).2 = TxResult.ok
    ∧ (txStep (runTx ops txInit) (TxOp.rollbackOp false)).2 = TxResult.ok
    ∧ (txStep (runTx ops txInit) (TxOp.rollbackOp false)).1.returnCount = 1
    ∧ (txStep (runTx ops txInit) (TxOp.rollbackOp false)).1.returned = true := by
  obtain ⟨a1, a2⟩ := runTx_char ops txInit rfl
  have hret : (runTx ops txInit).returned = false := by
    rw [a2]
    simp [txInit, h]
  have hcount : (runTx ops txInit).returnCount = 0 := by
    rw [a1, hret]
    rfl
  exact ⟨hret, hcount, by simp [txStep, hret], by simp [txStep, hret], by simp [txStep, hret],
    by simp [txStep, hret], by simp [txStep, hret],
    by simp [txStep, hret, returnToPool, hcount], by simp [txStep, hret, returnToPool]⟩

/-- Witness for C10 at the concrete scenario of the claim: a single commit
whose driver call throws, followed by a rollback. -/
theorem c10_witness :
    (runTx [TxOp.commitOp true] txInit).returned = false
    ∧ (txStep (runTx [TxOp.commitOp true] txInit) (TxOp.rollbackOp false)).1.returnCount = 1 :=
  ⟨(c10_commit_failure_leaves_tx_usable [TxOp.commitOp true] rfl).1,
   (c10_commit_failure_leaves_tx_usable [TxOp.commitOp true] rfl).2.2.2.2.2.2.2.1⟩

/-- Claim C5: after every complete state-mutating step of the pool
(`__addConnection`, `__removeConnection` — always called on a currently idle
record, `__tryPopConnection`, `__returnConnection` — including the
`__trimIdle` it triggers), the pool state satisfies the specification's
invariants (the first four clauses of `WF`: `numConnections` equals the size
of `allConnections`, `numIdleConnections` equals the size of
`idleConnections`, `idleConnections` is a subset of `allConnections`, and
every record in `idleConnections` has `checkedOut == false`), and
consequently the `popped connection which is already checked out` fault is
unreachable. -/
theorem c5_state_invariants_preserved (s : PoolState) (h : WF s) :
    WF (addConnection s)
    ∧ (∀ id ∈ s.idleConnections, WF (removeConnection s id))
    ∧ (∀ r s', tryPopConnection s = Except.ok (r, s') → WF s')
    ∧ (∀ msg, tryPopConnection s ≠ Except.error msg)
    ∧ (∀ id s', returnConnection s id = Except.ok s' → WF s') := by
  refine ⟨WF_addConnection s h, fun id hid => WF_removeConnection s id h hid, ?_, ?_, ?_⟩
  · intro r s' hok
    rcases tryPop_cases s h with ⟨hnil, heq⟩ | ⟨id, rest, info, hidle, hfind, hco, heq⟩
    · rw [heq] at hok
      simp only [Except.ok.injEq, Prod.mk.injEq] at hok
      exact hok.2 ▸ h
    · rw [heq] at hok
      simp only [Except.ok.injEq, Prod.mk.injEq] at hok
      exact hok.2 ▸ WF_popResult s id rest h hidle
  · intro msg
    rcases tryPop_cases s h with ⟨_, heq⟩ | ⟨_, _, _, _, _, _, heq⟩ <;> simp [heq]
  · intro id s' hok
    exact (returnConnection_ok_spec s id s' h hok).1

/-- Witness for C5 at a concrete well-formed pool (one idle connection). -/
theorem c5_witness :
    WF (addConnection (addConnection (mkPool none none))) :=
  (c5_state_invariants_preserved (addConnection (mkPool none none))
    (by decide)).1

/-- Claim C7: after every return of a connection, if the idle count exceeds
the configured `idleConnections` target, trimming removes idle records until
`numIdleConnections` equals exactly the target (no concurrent checkout can
intervene: `__returnConnection` and `__trimIdle` run in one atomic block);
each trimmed record is purged from `allConnections` and `idleConnections`
(it is absent from both in the post state, and `trimStep` performs the purge
before recording the driver `close()`), and each trimmed connection receives
exactly one close call ever (`closedConns`, the issue-ordered log of driver
close calls, stays duplicate-free); the close's outcome is not awaited or
surfaced (the pool state does not depend on it). -/
theorem c7_return_trims_idle_to_target (s : PoolState) (id : Nat) (s' : PoolState)
    (h : WF s) (hok : returnConnection s id = Except.ok s') :
    s'.numIdleConnections =
      (if s.numIdleConnections + 1 ≤ (s.idleTarget : Int) then s.numIdleConnections + 1
       else (s.idleTarget : Int))
    ∧ (∃ tr : List Nat,
        s'.closedConns = s.closedConns ++ tr
        ∧ s'.numIdleConnections + (tr.length : Int) = s.numIdleConnections + 1
        ∧ s'.closedConns.Nodup
        ∧ (∀ i ∈ tr, i ∉ idsOf s' ∧ i ∉ s'.idleConnections))
    ∧ WF s' := by
  obtain ⟨hWF', ⟨tr, h2a, h2b⟩, h3, _⟩ := returnConnection_ok_spec s id s' h hok
  refine ⟨h3, ⟨tr, h2a, h2b, hWF'.2.2.2.2.2.2.2.1, fun i hi => ?_⟩, hWF'⟩
  have hic : i ∈ s'.closedConns := h2a ▸ List.mem_append_right _ hi
  have hni : i ∉ idsOf s' := (hWF'.2.2.2.2.2.2.2.2 i hic).2
  exact ⟨hni, fun hidle => hni (hWF'.2.2.1 i hidle)⟩

/-- Example pool for the C7 witness: idle target 0, one connection (id 1)
currently checked out by the only checkout so far. -/
def c7exState : PoolState := outcomeState (connectResume (mkPool (some 0) none))

/-- The pool `c7exState` after returning connection 1: the idle count is
trimmed straight back to the target 0 and the trimmed connection's driver
close has been issued once. -/
def c7exPost : PoolState :=
  { idleTarget := 0, maxConnections := none, allConnections := [], numConnections := 0,
    idleConnections := [], numIdleConnections := 0, dead := false, semaClosed := false,
    curConnID := 1, closedConns := [1], signalCount := 1 }

/-- Witness for C7: returning the only checked-out connection of a pool with
idle target 0 trims the idle count straight back to the target. -/
theorem c7_witness :
    c7exPost.numIdleConnections
      = (if c7exState.numIdleConnections + 1 ≤ (c7exState.idleTarget : Int)
         then c7exState.numIdleConnections + 1 else (c7exState.idleTarget : Int)) :=
  (c7_return_trims_idle_to_target c7exState 1 c7exPost (by decide) rfl).1

/-- Claim C8: whenever an idle connection is immediately available, the
entry block of the checkout succeeds and hands out a connection even if the
caller's context has already signalled cancellation (`c` arbitrary here —
the first `__tryPopConnection` runs before any cancellation check); and when
no idle connection is available, an already-cancelled context makes the
checkout fail at the admission-blocking points with the context's error
(after the dead-pool check), never suspending on the gate and never reaching
the driver connect call. -/
theorem c8_idle_checkout_ignores_cancellation (s : PoolState) (h : WF s) :
    (s.idleConnections ≠ [] →
      ∀ c : Bool, ∃ id s', popConnStart s c = PopOutcome.got id s')
    ∧ (s.idleConnections = [] →
      popConnStart s true = (if s.dead then PopOutcome.failDead s else PopOutcome.failCtx s)) := by
  constructor
  · intro hne c
    rcases tryPop_cases s h with ⟨hnil, _⟩ | ⟨id, rest, info, hidle, hfind, hco, heq⟩
    · exact absurd hnil hne
    · refine ⟨id, setCheckedOut { s with idleConnections := rest,
                                         numIdleConnections := s.numIdleConnections - 1 } id true, ?_⟩
      simp only [popConnStart, heq]
  · intro hnil
    have heq : tryPopConnection s = .ok (none, s) := by simp [tryPopConnection, hnil]
    simp only [popConnStart, heq]
    by_cases hd : s.dead <;> simp [popConnTail, hd]

/-- Witness for C8: a pool with one idle connection hands it out to a
checkout whose context is already cancelled. -/
theorem c8_witness :
    ∃ id s', popConnStart (addConnection (mkPool none none)) true = PopOutcome.got id s' :=
  (c8_idle_checkout_ignores_cancellation (addConnection (mkPool none none))
    (by decide)).1 (by decide) true

/-- Claim C9: whenever the checkout protocol reaches its final step and the
driver connect call succeeds, the resumption block (which runs
`__addConnection` and the following `__tryPopConnection` atomically — there
is no `await` between them, see §5 of the specification) always pops a
record, so the internal fatal error `DB pool cannot open additional
connection` is never thrown from a well-formed state. -/
theorem c9_fresh_connection_pop_succeeds (s : PoolState) (h : WF s) :
    (∃ id s', connectResume s = PopOutcome.got id s')
    ∧ (∀ s', connectResume s ≠ PopOutcome.fatalErr s') := by
  have hWFa := WF_addConnection s h
  have hne : (addConnection s).idleConnections ≠ [] := by simp [addConnection]
  rcases tryPop_cases _ hWFa with ⟨hnil, _⟩ | ⟨id, rest, info, hidle, hfind, hco, heq⟩
  · exact absurd hnil hne
  · have hrun : connectResume s = PopOutcome.got id
        (setCheckedOut { addConnection s with
                         idleConnections := rest,
                         numIdleConnections := (addConnection s).numIdleConnections - 1 } id true) := by
      simp only [connectResume, heq]
    refine ⟨⟨id, _, hrun⟩, fun s' hcontra => ?_⟩
    rw [hrun] at hcontra
    exact PopOutcome.noConfusion hcontra

/-- Witness for C9 on a concrete pool: the resumption after a successful
connect on an empty pool pops the fresh record. -/
theorem c9_witness :
    ∃ id s', connectResume (mkPool none none) = PopOutcome.got id s' :=
  (c9_fresh_connection_pop_succeeds (mkPool none none) (by decide)).1

theorem trimIdleFuel_dead (fuel : Nat) : ∀ s : PoolState,
    (trimIdleFuel fuel s).dead = s.dead := by
  induction fuel with
  | zero => intro s; rfl
  | succ fuel ih =>
    intro s
    simp only [trimIdleFuel]
    split
    · split
      · rfl
      · rw [ih]
        rfl
    · rfl

theorem tryPop_dead (s : PoolState) (r : Option Nat) (s' : PoolState)
    (h : tryPopConnection s = .ok (r, s')) : s'.dead = s.dead := by
  unfold tryPopConnection at h
  split at h
  · simp only [Except.ok.injEq, Prod.mk.injEq] at h
    rw [← h.2]
  · dsimp only at h
    split at h
    · simp only [Except.ok.injEq, Prod.mk.injEq] at h
      rw [← h.2]
    · split at h
      · simp at h
      · simp only [Except.ok.injEq, Prod.mk.injEq] at h
        rw [← h.2]
        rfl

theorem returnConnection_dead (s : PoolState) (id : Nat) (s' : PoolState)
    (h : returnConnection s id = .ok s') : s'.dead = s.dead := by
  unfold returnConnection at h
  split at h
  · simp at h
  · split at h
    · simp at h
    · dsimp only at h
      simp only [Except.ok.injEq] at h
      rw [← h]
      show (trimIdle _).dead = s.dead
      rw [trimIdle, trimIdleFuel_dead]
      rfl

/-- Claim C6: `close()` sets the dead flag (and is a no-op — leaving the
state untouched — when the pool is already dead, so a second `close()` does
nothing); once the flag is set, every `exec`/`query`/`begin` entry fails
immediately with the dead-pool error, with the state unchanged and before
any checkout or driver call is attempted (`opStart` returns `failDead`
without popping); and no pool operation ever clears the flag — every state
transformer of the embedding preserves it, so the pool is terminal. -/
theorem c6_close_is_terminal (s : PoolState) (c : Bool) :
    (closePool s).dead = true
    ∧ (s.dead = true → closePool s = s)
    ∧ (s.dead = true → opStart s c = PopOutcome.failDead s)
    ∧ closePool (closePool s) = closePool s
    ∧ (addConnection s).dead = s.dead
    ∧ (∀ id, (removeConnection s id).dead = s.dead)
    ∧ (trimIdle s).dead = s.dead
    ∧ (∀ id b, (setCheckedOut s id b).dead = s.dead)
    ∧ (∀ r s', tryPopConnection s = Except.ok (r, s') → s'.dead = s.dead)
    ∧ (∀ id s', returnConnection s id = Except.ok s' → s'.dead = s.dead) := by
  refine ⟨?_, ?_, ?_, ?_, rfl, fun id => rfl, ?_, fun id b => rfl,
    fun r s' h => tryPop_dead s r s' h, fun id s' h => returnConnection_dead s id s' h⟩
  · by_cases hd : s.dead <;> simp [closePool, hd]
  · intro hd
    simp [closePool, hd]
  · intro hd
    simp [opStart, hd]
  · by_cases hd : s.dead <;> simp [closePool, hd]
  · rw [trimIdle, trimIdleFuel_dead]

/-- Witness for C6: on a freshly closed pool, a `begin`/`exec`/`query` entry
fails immediately with the dead-pool error and a second close is a no-op. -/
theorem c6_witness :
    opStart (closePool (mkPool none none)) true
        = PopOutcome.failDead (closePool (mkPool none none))
    ∧ closePool (closePool (mkPool none none)) = closePool (mkPool none none) :=
  ⟨(c6_close_is_terminal (closePool (mkPool none none)) true).2.2.1 (by decide),
   (c6_close_is_terminal (closePool (mkPool none none)) true).2.1 (by decide)⟩

/-- Claim C1 fails on the code: admission CAN overshoot `maxConnections`
while several checkouts are concurrently awaiting the driver connect call.
This theorem evaluates the code on the failing interleaving.  Pool created
with `maxConnections = 1` (and `idleConnections` defaulted to 1).  Checkout
A runs its entry block on the empty pool: it finds no idle record, passes
the capacity check (`numConnections = 0 < 1`), and suspends in the driver
connect call, leaving the state unchanged.  Checkout B then runs its entry
block on the very same state (A is suspended) and likewise suspends in
connect.  A's connect resolves: A registers a fresh connection and pops it.
B's connect resolves on the state A left: B registers a second connection
and pops it.  The pool now has `numConnections = 2 > maxConnections = 1` —
the capacity check is made before the connect suspension and no reservation
is taken, so concurrent connects overshoot the cap. -/
theorem c1_max_connections_overshoot :
    (mkPool none (some 1)).maxConnections = some 1
    ∧ popConnStart (mkPool none (some 1)) false = PopOutcome.enterConnect (mkPool none (some 1))
    ∧ isGot (connectResume (mkPool none (some 1))) = true
    ∧ isGot (connectResume (outcomeState (connectResume (mkPool none (some 1))))) = true
    ∧ (outcomeState (connectResume (outcomeState
        (connectResume (mkPool none (some 1)))))).numConnections = 2 := by
  refine ⟨rfl, ?_, rfl, rfl, rfl⟩
  decide

/-- Claim C2 fails on the code: a checkout suspended on the wait gate when
`close()` is called does NOT terminate with the dead-pool error — it loops
forever.  This theorem evaluates the code on the failing configuration.
Pool with `maxConnections = 1` whose only connection (opened and checked
out by a first checkout) is never returned; a second checkout's entry block
finds no idle record, sees the pool at capacity with its context not
cancelled, and suspends in `await __connectionAvailableSema.wait()`.  Then
`close()` runs: it sets the dead flag and closes the gate, waking the
waiter.  The woken waiter's block (`popConnWake`) pops nothing, re-checks
the loop condition — which tests only capacity and the context, never
deadness — finds it still true, and suspends in `wait()` again; with the
gate closed, `wait()` resolves immediately, so the waiter re-runs the very
same block on the very same state forever.  The `__checkDead()` placed
after the loop is never reached, so the checkout neither fails with the
dead-pool error nor terminates. -/
theorem c2_blocked_checkout_spins_after_close :
    popConnStart (outcomeState (connectResume (mkPool none (some 1)))) false
      = PopOutcome.enterWait (outcomeState (connectResume (mkPool none (some 1))))
    ∧ (closePool (outcomeState (connectResume (mkPool none (some 1))))).dead = true
    ∧ (closePool (outcomeState (connectResume (mkPool none (some 1))))).semaClosed = true
    ∧ popConnWake (closePool (outcomeState (connectResume (mkPool none (some 1))))) false
      = PopOutcome.enterWait (closePool (outcomeState (connectResume (mkPool none (some 1))))) := by
  refine ⟨?_, rfl, rfl, ?_⟩ <;> decide

/-- Witness for C3: a two-row stream closed after no iteration fires the
return callback exactly once. -/
theorem c3_witness : (runRows [ROp.rclose] (mkRows 2)).doneCount = 1 :=
  (c3_rows_connection_returned_exactly_once 2 []).2.2.1

/-- Witness for C4: a single successful commit fires the return callback
exactly once. -/
theorem c4_witness : (runTx [TxOp.commitOp false] txInit).returnCount = 1 :=
  (c4_tx_connection_returned_exactly_once [TxOp.commitOp false]).2.1
